import Mathlib

/-!
Verification development for the gwpopulation core: the backend registry
(`gwpopulation/backend.py`) and the redshift population model family
(`gwpopulation/models/redshift.py`).

Conventions of the shallow embedding:
* Python floats are modelled as real numbers (`ℝ`); numpy arrays as `List ℝ`,
  with elementwise operations as `List.map` / `List.zipWith`.
* Backend array conversion (`xp.asarray`) is the identity on values, so a
  single list stands for both the backend-independent and the backend copy.
* Exceptions are modelled with `Except`: an `Except.error` result means the
  exception propagates and the caller's state is unchanged.
* The import system is modelled by an environment assigning to each module
  path an outcome: importable, not installed (`ModuleNotFoundError`), or
  present but failing to import (`ImportError`).
-/

/-! ## Backend registry (`gwpopulation/backend.py`) -/

/-- Outcome of attempting to import a Python module path. -/
inductive ImportOutcome
  | ok
  | notFound
  | broken
deriving DecidableEq

/-- The import environment: what happens when each module path is imported.
Python's `ModuleNotFoundError` (module not installed) is `notFound`; any
other `ImportError` (installed but broken) is `broken`. -/
structure ImportEnv where
  outcome : String → ImportOutcome

/-- The Python exception kinds raised by `set_backend`.  In Python,
`ModuleNotFoundError` is a subclass of `ImportError`; the source catches
`ModuleNotFoundError` first, so the two remain distinguishable kinds. -/
inductive PyError
  | valueError (msg : String)
  | moduleNotFoundError (msg : String)
  | importError (msg : String)
deriving DecidableEq

/-- Process-wide state touched by `set_backend`: the `__backend__` string and
the `xp` / `scs` attribute bound on each dependent gwpopulation module.
`none` means the attribute has not been bound yet. -/
structure BackendState where
  backend : String
  xpBinding : String → Option String
  scsBinding : String → Option String

/-- `SUPPORTED_BACKENDS = ["numpy", "cupy", "jax"]`. -/
def SUPPORTED_BACKENDS : List String := ["numpy", "cupy", "jax"]

/-- `__all_with_xp`: the modules whose `xp` attribute is rebound. -/
def all_with_xp : List String :=
  ["hyperpe", "models.interped", "models.mass", "models.redshift",
   "models.spin", "utils", "vt"]

/-- `__all_with_scs`: the modules whose `scs` attribute is rebound. -/
def all_with_scs : List String := ["models.mass", "utils"]

/-- `_np_module`: array-module path for each backend (`dict` lookup). -/
def np_module : String → String
  | "numpy" => "numpy"
  | "cupy" => "cupy"
  | "jax" => "jax.numpy"
  | _ => ""

/-- `_scipy_module`: scientific-module path for each backend. -/
def scipy_module : String → String
  | "numpy" => "scipy"
  | "cupy" => "cupyx.scipy"
  | "jax" => "jax.scipy"
  | _ => ""

/-- The first failure among the two imports executed inside the `try` block
(`xp` is imported before `scs`, so its failure wins). -/
def firstImportFailure (xpO scsO : ImportOutcome) : ImportOutcome :=
  match xpO with
  | ImportOutcome.ok => scsO
  | e => e

/-- The two `for` loops at the end of `set_backend`: rebind `xp` on every
module of `__all_with_xp` (assigning `__backend__` inside that loop, as the
source does) and `scs` on every module of `__all_with_scs`. -/
def rebindAll (st : BackendState) (backend : String) : BackendState :=
  let xp := np_module backend
  let scs := scipy_module backend ++ ".special"
  all_with_scs.foldl
    (fun s m => { s with scsBinding := Function.update s.scsBinding m (some scs) })
    (all_with_xp.foldl
      (fun s m =>
        { s with backend := backend,
                 xpBinding := Function.update s.xpBinding m (some xp) }) st)

/-- Shallow embedding of `gwpopulation.backend.set_backend`.

Control flow mirrors the source line by line:
1. reject names outside `SUPPORTED_BACKENDS` with a `ValueError` naming the
   supported set (before consulting the import environment at all);
2. return unchanged if the name equals the active `__backend__`;
3. for `"jax"`, `from jax import config` runs before the guarded imports, so
   a missing or broken jax surfaces as the interpreter's own raw
   `ModuleNotFoundError` / `ImportError` (the x64-precision switch it enables
   is jax-library state, outside `BackendState`);
4. import the array module then the scientific module, translating
   `ModuleNotFoundError` to "not installed" and other `ImportError`s to
   "installed but not importable";
5. for `"jax"`, `from jax.scipy.integrate import trapezoid` is guarded only
   against `ModuleNotFoundError`, so a broken module propagates (the alias
   it installs lives on the jax module object, outside `BackendState`);
6. rebind `xp` on every module in `__all_with_xp` (setting `__backend__`
   inside the same loop, as the source does) and `scs` on every module in
   `__all_with_scs`. -/
def set_backend (env : ImportEnv) (st : BackendState) (backend : String) :
    Except PyError BackendState :=
  if backend ∉ SUPPORTED_BACKENDS then
    Except.error (PyError.valueError
      ("Backend " ++ backend ++ " not supported, should be in "
        ++ String.intercalate ", " SUPPORTED_BACKENDS))
  else if backend = st.backend then
    Except.ok st
  else
    match (if backend = "jax" then env.outcome "jax" else ImportOutcome.ok) with
    | ImportOutcome.notFound =>
        Except.error (PyError.moduleNotFoundError "No module named jax")
    | ImportOutcome.broken =>
        Except.error (PyError.importError "cannot import name config from jax")
    | ImportOutcome.ok =>
      match firstImportFailure (env.outcome (np_module backend))
          (env.outcome (scipy_module backend)) with
      | ImportOutcome.notFound =>
          Except.error (PyError.moduleNotFoundError (backend ++ " not installed"))
      | ImportOutcome.broken =>
          Except.error (PyError.importError (backend ++ " installed but not importable"))
      | ImportOutcome.ok =>
        if backend = "jax" ∧ env.outcome "jax.scipy.integrate" = ImportOutcome.broken then
          Except.error (PyError.importError "jax.scipy.integrate is broken")
        else
          Except.ok (rebindAll st backend)

/-! ## Redshift model family (`gwpopulation/models/redshift.py`) -/

/-- Modelled from the spec: the external numeric helper
`gwpopulation.utils.powerlaw` (imported by `redshift.py` but not part of the
sources given here).  The spec describes it as an elementwise power-law
density shape, zero outside `[low, high]`, used as
`psi_of_z(z) = ((1+z)/1)^alpha` restricted to `1+z` in `[1, 1+z_max]` and
"not itself required to integrate to 1 before normalization is applied". -/
noncomputable def powerlaw (x alpha high low : ℝ) : ℝ :=
  if low ≤ x ∧ x ≤ high then x ^ alpha else 0

/-- Modelled from the spec: the external numeric helper `trapz(y, x)`
(imported from `cupy_utils`, not part of the sources given here), the
trapezoidal rule `Σ (y_i + y_(i+1))/2 * (x_(i+1) - x_i)`. -/
noncomputable def trapz : List ℝ → List ℝ → ℝ
  | y0 :: y1 :: ys, x0 :: x1 :: xs =>
      (y0 + y1) / 2 * (x1 - x0) + trapz (y1 :: ys) (x1 :: xs)
  | _, _ => 0

/-- `np.interp(x, xs, ys)`: piecewise-linear interpolation with numpy's
documented clamping semantics — queries below the first sample return the
first value, queries above the last sample return the last value. -/
noncomputable def interp (x : ℝ) : List ℝ → List ℝ → ℝ
  | x0 :: x1 :: xs, y0 :: y1 :: ys =>
      if x ≤ x0 then y0
      else if x ≤ x1 then y0 + (y1 - y0) * (x - x0) / (x1 - x0)
      else interp x (x1 :: xs) (y1 :: ys)
  | [_], [y0] => y0
  | _, _ => 0

/-- `np.linspace(lo, hi, n)`: `n` evenly spaced samples from `lo` to `hi`. -/
noncomputable def linspace (lo hi : ℝ) (n : ℕ) : List ℝ :=
  (List.range n).map (fun i : ℕ => lo + (hi - lo) * (i : ℝ) / ((n : ℝ) - 1))

/-- State of a `_Redshift` instance.  `zs` and `dvc_dz` are the fixed grid
and volume values (held once each: backend conversion is the identity on
values in this embedding); `cached_dvc_dz` is the single cache slot,
`none` for the `None` set in `__init__`. -/
structure RedshiftState where
  z_max : ℝ
  zs : List ℝ
  dvc_dz : List ℝ
  cached_dvc_dz : Option (List ℝ)

/-- `_Redshift.__init__(z_max)`.  The cosmology provider
(`Planck15.differential_comoving_volume(...).value`, an external
collaborator) is abstracted as the function `dvc`; as in the source its
per-steradian values are scaled by `4 * np.pi` before storage, and the grid
is `np.linspace(1e-3, z_max, 1000)`. -/
noncomputable def mkRedshiftState (dvc : ℝ → ℝ) (z_max : ℝ) : RedshiftState :=
  { z_max := z_max
    zs := linspace (1 / 1000) z_max 1000
    dvc_dz := (linspace (1 / 1000) z_max 1000).map (fun z => dvc z * 4 * Real.pi)
    cached_dvc_dz := none }

/-- `_Redshift._cache_dvc_dz(redshifts)`: the freshly interpolated volume
values for a dataset. -/
noncomputable def cache_dvc_dz (st : RedshiftState) (data : List ℝ) : List ℝ :=
  data.map (fun z => interp z st.zs st.dvc_dz)

/-- `_Redshift.normalisation(parameters)`:
`trapz(psi_of_z(zs) * dvc_dz / (1 + zs), zs)`.  The per-call parameter
dictionary is already applied inside `psi`. -/
noncomputable def normalisation (psi : ℝ → ℝ) (st : RedshiftState) : ℝ :=
  trapz
    (List.zipWith (fun pd z => pd / (1 + z))
      (List.zipWith (fun p d => p * d) (st.zs.map psi) st.dvc_dz) st.zs)
    st.zs

/-- Numpy's in-place elementwise product `p_z *= c` for 1-D arrays: a
length-1 `c` broadcasts against any `p_z`; otherwise the lengths agree
(callers reach this only when `p_z *= c` does not raise). -/
noncomputable def mulBroadcast (pz c : List ℝ) : List ℝ :=
  if c.length = 1 then pz.map (fun p => p * c.headI)
  else List.zipWith (fun p v => p * v) pz c

/-- The intermediate array `p_z = psi_of_z / (1 + z) / normalisation`
computed at the start of `_Redshift.probability`. -/
noncomputable def p_z (psi : ℝ → ℝ) (st : RedshiftState) (data : List ℝ) :
    List ℝ :=
  data.map (fun z => psi z / (1 + z) / normalisation psi st)

/-- `_Redshift.probability(dataset, **parameters)`: computes `p_z`, then
runs `p_z *= self.cached_dvc_dz` inside `try`.  For 1-D arrays the
`except (TypeError, ValueError)` branch is taken exactly when the cache is
`None` (`TypeError`) or when the cached array neither matches the dataset
length nor has length 1 (numpy rejects the non-broadcastable in-place
product with a `ValueError`); the handler calls `_cache_dvc_dz` and retries.
Returns the array and the updated instance. -/
noncomputable def probability (psi : ℝ → ℝ) (st : RedshiftState) (data : List ℝ) :
    List ℝ × RedshiftState :=
  match st.cached_dvc_dz with
  | some c =>
      if c.length = (p_z psi st data).length ∨ c.length = 1 then
        (mulBroadcast (p_z psi st data) c, st)
      else
        (mulBroadcast (p_z psi st data) (cache_dvc_dz st data),
         { st with cached_dvc_dz := some (cache_dvc_dz st data) })
  | none =>
      (mulBroadcast (p_z psi st data) (cache_dvc_dz st data),
       { st with cached_dvc_dz := some (cache_dvc_dz st data) })

/-- `PowerLawRedshift.psi_of_z`:
`powerlaw(1 + redshift, alpha=parameters["lamb"], high=1 + z_max, low=1)`. -/
noncomputable def PowerLawRedshift.psi_of_z (z_max lamb redshift : ℝ) : ℝ :=
  powerlaw (1 + redshift) lamb (1 + z_max) 1

/-- `MadauDickinsonRedshift.psi_of_z`:
`powerlaw(1 + z, alpha=gamma, high=1 + z_max, low=1)` divided by
`1 + ((1 + z) / (1 + z_peak)) ** kappa`. -/
noncomputable def MadauDickinsonRedshift.psi_of_z
    (z_max gamma kappa z_peak redshift : ℝ) : ℝ :=
  powerlaw (1 + redshift) gamma (1 + z_max) 1
    / (1 + ((1 + redshift) / (1 + z_peak)) ^ kappa)

/-- The trapezoidal rule as the spec words it: an indexed sum of
`(g(z_i) + g(z_(i+1)))/2 * (z_(i+1) - z_i)` over consecutive grid points. -/
noncomputable def trapzSpec (g : ℝ → ℝ) (xs : List ℝ) : ℝ :=
  ∑ i ∈ Finset.range (xs.length - 1),
    (g (xs.getD i 0) + g (xs.getD (i + 1) 0)) / 2 * (xs.getD (i + 1) 0 - xs.getD i 0)

/-- A concrete differential-comoving-volume provider (per steradian, so that
the stored full-sky values are `(3 + z) / 2`). -/
noncomputable def dvcCex : ℝ → ℝ := fun z => (3 + z) / (8 * Real.pi)

/-! ## Theorems about the backend registry -/

/-- C4: for every name outside the supported set, `set_backend` fails with a
`ValueError` whose message lists `numpy, cupy, jax`, and does so before
doing any import work: the result is the same error for every
environment of importable modules, and (being an error) the active backend
and module bindings are unchanged. -/
theorem set_backend_rejects_unsupported (env env' : ImportEnv) (st : BackendState)
    (name : String) (h : name ∉ SUPPORTED_BACKENDS) :
    set_backend env st name
      = Except.error (PyError.valueError
          ("Backend " ++ name ++ " not supported, should be in numpy, cupy, jax"))
      ∧ set_backend env st name = set_backend env' st name := by
  have hj : String.intercalate ", " SUPPORTED_BACKENDS = "numpy, cupy, jax" := rfl
  have hm : (" not supported, should be in " ++ "numpy, cupy, jax" : String)
      = " not supported, should be in numpy, cupy, jax" := rfl
  constructor
  · simp [set_backend, h, hj, String.append_assoc, hm]
  · simp [set_backend, h]

/-- Witness for C4 at the concrete name `"torch"`, over two environments that
disagree about every import. -/
theorem set_backend_rejects_unsupported_witness :
    set_backend ⟨fun _ => ImportOutcome.ok⟩ ⟨"", fun _ => none, fun _ => none⟩ "torch"
      = Except.error (PyError.valueError
          ("Backend " ++ "torch" ++ " not supported, should be in numpy, cupy, jax"))
      ∧ set_backend ⟨fun _ => ImportOutcome.ok⟩ ⟨"", fun _ => none, fun _ => none⟩ "torch"
      = set_backend ⟨fun _ => ImportOutcome.notFound⟩
          ⟨"", fun _ => none, fun _ => none⟩ "torch" :=
  set_backend_rejects_unsupported _ _ _ _ (by decide)

/-- C5: for every supported backend that is not currently active, a failing
array-module import surfaces as the `ModuleNotFoundError` kind when the
backend is not installed, as the `ImportError` kind when it is present but
broken, and the two kinds are distinct — including for jax, whose
pre-`try` `from jax import config` raises the interpreter's raw error of the
same kind (the hypothesis `hjax` says a missing or broken jax installation
affects `jax` and `jax.numpy` alike). -/
theorem set_backend_error_kinds (env : ImportEnv) (st : BackendState)
    (name : String) (h1 : name ∈ SUPPORTED_BACKENDS) (h2 : name ≠ st.backend)
    (hjax : name = "jax" → env.outcome "jax" = env.outcome "jax.numpy") :
    (env.outcome (np_module name) = ImportOutcome.notFound →
      ∃ m, set_backend env st name = Except.error (PyError.moduleNotFoundError m))
    ∧ (env.outcome (np_module name) = ImportOutcome.broken →
      ∃ m, set_backend env st name = Except.error (PyError.importError m))
    ∧ ∀ m m', PyError.moduleNotFoundError m ≠ PyError.importError m' := by
  have h1' : name = "numpy" ∨ name = "cupy" ∨ name = "jax" := by
    simpa [SUPPORTED_BACKENDS] using h1
  refine ⟨?_, ?_, fun m m' hc => by cases hc⟩ <;>
      rcases h1' with h | h | h <;> subst h <;> intro hx <;>
      simp only [np_module] at hx
  · exact ⟨"numpy not installed", by simp [set_backend, SUPPORTED_BACKENDS, h2,
      np_module, scipy_module, firstImportFailure, hx]⟩
  · exact ⟨"cupy not installed", by simp [set_backend, SUPPORTED_BACKENDS, h2,
      np_module, scipy_module, firstImportFailure, hx]⟩
  · exact ⟨"No module named jax", by simp [set_backend, SUPPORTED_BACKENDS, h2,
      np_module, scipy_module, firstImportFailure, hx, hjax rfl]⟩
  · exact ⟨"numpy installed but not importable", by simp [set_backend,
      SUPPORTED_BACKENDS, h2, np_module, scipy_module, firstImportFailure, hx]⟩
  · exact ⟨"cupy installed but not importable", by simp [set_backend,
      SUPPORTED_BACKENDS, h2, np_module, scipy_module, firstImportFailure, hx]⟩
  · exact ⟨"cannot import name config from jax", by simp [set_backend,
      SUPPORTED_BACKENDS, h2, np_module, scipy_module, firstImportFailure, hx, hjax rfl]⟩

/-- Witness for C5: with nothing installed, switching from numpy to cupy
fails with the `ModuleNotFoundError` kind; with cupy present but broken it
fails with the `ImportError` kind. -/
theorem set_backend_error_kinds_witness :
    (∃ m, set_backend ⟨fun _ => ImportOutcome.notFound⟩
        ⟨"numpy", fun _ => none, fun _ => none⟩ "cupy"
      = Except.error (PyError.moduleNotFoundError m))
    ∧ (∃ m, set_backend ⟨fun _ => ImportOutcome.broken⟩
        ⟨"numpy", fun _ => none, fun _ => none⟩ "cupy"
      = Except.error (PyError.importError m)) :=
  ⟨(set_backend_error_kinds ⟨fun _ => ImportOutcome.notFound⟩
      ⟨"numpy", fun _ => none, fun _ => none⟩ "cupy"
      (by decide) (by decide) (by decide)).1 rfl,
   (set_backend_error_kinds ⟨fun _ => ImportOutcome.broken⟩
      ⟨"numpy", fun _ => none, fun _ => none⟩ "cupy"
      (by decide) (by decide) (by decide)).2.1 rfl⟩

/-- Pointwise description of the `xp`-rebinding loop. -/
lemma foldl_xp_apply (backend xp : String) (l : List String) (st : BackendState)
    (m : String) :
    (l.foldl (fun s m' =>
      { s with backend := backend,
               xpBinding := Function.update s.xpBinding m' (some xp) }) st).xpBinding m
      = if m ∈ l then some xp else st.xpBinding m := by
  induction l generalizing st with
  | nil => simp
  | cons a t ih =>
    simp only [List.foldl_cons, ih]
    by_cases hm : m ∈ t
    · simp [hm]
    · by_cases hma : m = a <;> simp [hm, hma, Function.update_apply]

/-- The `xp`-rebinding loop sets `__backend__` (on every iteration, hence
exactly when the module list is nonempty). -/
lemma foldl_xp_backend (backend xp : String) (l : List String) (st : BackendState)
    (hl : l ≠ []) :
    (l.foldl (fun s m' =>
      { s with backend := backend,
               xpBinding := Function.update s.xpBinding m' (some xp) }) st).backend
      = backend := by
  induction l generalizing st with
  | nil => exact absurd rfl hl
  | cons a t ih =>
    cases t with
    | nil => simp
    | cons b t2 => exact ih _ (by simp)

/-- Pointwise description of the `scs`-rebinding loop. -/
lemma foldl_scs_apply (scs : String) (l : List String) (st : BackendState)
    (m : String) :
    (l.foldl (fun s m' =>
      { s with scsBinding := Function.update s.scsBinding m' (some scs) }) st).scsBinding m
      = if m ∈ l then some scs else st.scsBinding m := by
  induction l generalizing st with
  | nil => simp
  | cons a t ih =>
    simp only [List.foldl_cons, ih]
    by_cases hm : m ∈ t
    · simp [hm]
    · by_cases hma : m = a <;> simp [hm, hma, Function.update_apply]

/-- The `scs`-rebinding loop leaves `__backend__` alone. -/
lemma foldl_scs_backend (scs : String) (l : List String) (st : BackendState) :
    (l.foldl (fun s m' =>
      { s with scsBinding := Function.update s.scsBinding m' (some scs) }) st).backend
      = st.backend := by
  induction l generalizing st with
  | nil => rfl
  | cons a t ih => simp only [List.foldl_cons, ih]

/-- The `scs`-rebinding loop leaves the `xp` bindings alone. -/
lemma foldl_scs_xpBinding (scs : String) (l : List String) (st : BackendState) :
    (l.foldl (fun s m' =>
      { s with scsBinding := Function.update s.scsBinding m' (some scs) }) st).xpBinding
      = st.xpBinding := by
  induction l generalizing st with
  | nil => rfl
  | cons a t ih => simp only [List.foldl_cons, ih]

/-- After the rebinding loops the active backend is the new name. -/
lemma rebindAll_backend (st : BackendState) (backend : String)
    (hl : all_with_xp ≠ []) :
    (rebindAll st backend).backend = backend := by
  unfold rebindAll
  rw [foldl_scs_backend]
  exact foldl_xp_backend _ _ _ _ hl

/-- After the rebinding loops every module of `__all_with_xp` sees the new
array module. -/
lemma rebindAll_xp (st : BackendState) (backend : String) (m : String)
    (hm : m ∈ all_with_xp) :
    (rebindAll st backend).xpBinding m = some (np_module backend) := by
  unfold rebindAll
  rw [foldl_scs_xpBinding, foldl_xp_apply, if_pos hm]

/-- After the rebinding loops every module of `__all_with_scs` sees the new
special-function module. -/
lemma rebindAll_scs (st : BackendState) (backend : String) (m : String)
    (hm : m ∈ all_with_scs) :
    (rebindAll st backend).scsBinding m = some (scipy_module backend ++ ".special") := by
  unfold rebindAll
  rw [foldl_scs_apply, if_pos hm]

/-- C6: when every needed import succeeds, `set_backend` on a supported name
equal to the active backend is a no-op, and on a different supported name it
succeeds with a state whose `__backend__` is the new name and whose `xp`
(resp. `scs`) attribute is rebound on every module of `__all_with_xp`
(resp. `__all_with_scs`) to the new backend's array (resp. special-function)
module — so every consumer module, and hence every model instance reading
the binding at call time, observes the new backend. -/
theorem set_backend_rebinds_all_modules (env : ImportEnv) (st : BackendState)
    (name : String) (h1 : name ∈ SUPPORTED_BACKENDS)
    (hxp : env.outcome (np_module name) = ImportOutcome.ok)
    (hscs : env.outcome (scipy_module name) = ImportOutcome.ok)
    (hjax : name = "jax" → env.outcome "jax" = ImportOutcome.ok
      ∧ env.outcome "jax.scipy.integrate" ≠ ImportOutcome.broken) :
    (name = st.backend → set_backend env st name = Except.ok st)
    ∧ (name ≠ st.backend → ∃ st2, set_backend env st name = Except.ok st2
        ∧ st2.backend = name
        ∧ (∀ m ∈ all_with_xp, st2.xpBinding m = some (np_module name))
        ∧ ∀ m ∈ all_with_scs, st2.scsBinding m = some (scipy_module name ++ ".special")) := by
  have h1' : name = "numpy" ∨ name = "cupy" ∨ name = "jax" := by
    simpa [SUPPORTED_BACKENDS] using h1
  constructor
  · intro he
    rcases h1' with h | h | h <;> subst h <;>
      simp [set_backend, SUPPORTED_BACKENDS, ← he]
  · intro h2
    refine ⟨rebindAll st name, ?_,
      rebindAll_backend st name (by simp [all_with_xp]),
      fun m hm => rebindAll_xp st name m hm,
      fun m hm => rebindAll_scs st name m hm⟩
    rcases h1' with h | h | h <;> subst h <;>
        simp only [np_module, scipy_module] at hxp hscs
    · simp [set_backend, SUPPORTED_BACKENDS, h2, firstImportFailure,
        np_module, scipy_module, hxp, hscs]
    · simp [set_backend, SUPPORTED_BACKENDS, h2, firstImportFailure,
        np_module, scipy_module, hxp, hscs]
    · simp [set_backend, SUPPORTED_BACKENDS, h2, firstImportFailure,
        np_module, scipy_module, hxp, hscs, (hjax rfl).1, (hjax rfl).2]

/-- Witness for C6: with everything importable, switching from numpy to cupy
rebinds `xp` and `scs` everywhere and records the new backend. -/
theorem set_backend_rebinds_all_modules_witness :
    (("cupy" : String) = "numpy" →
      set_backend ⟨fun _ => ImportOutcome.ok⟩ ⟨"numpy", fun _ => none, fun _ => none⟩
        "cupy" = Except.ok ⟨"numpy", fun _ => none, fun _ => none⟩)
    ∧ (("cupy" : String) ≠ "numpy" →
      ∃ st2, set_backend ⟨fun _ => ImportOutcome.ok⟩
          ⟨"numpy", fun _ => none, fun _ => none⟩ "cupy" = Except.ok st2
        ∧ st2.backend = "cupy"
        ∧ (∀ m ∈ all_with_xp, st2.xpBinding m = some (np_module "cupy"))
        ∧ ∀ m ∈ all_with_scs, st2.scsBinding m = some (scipy_module "cupy" ++ ".special")) :=
  set_backend_rebinds_all_modules ⟨fun _ => ImportOutcome.ok⟩
    ⟨"numpy", fun _ => none, fun _ => none⟩ "cupy" (by decide) rfl rfl (by decide)

/-! ## Elementwise-operation lemmas -/

/-- Elementwise combination of two elementwise images of the same array. -/
lemma zipWith_map_same (f : ℝ → ℝ → ℝ) (g h : ℝ → ℝ) (l : List ℝ) :
    List.zipWith f (l.map g) (l.map h) = l.map (fun x => f (g x) (h x)) := by
  induction l with
  | nil => rfl
  | cons a t ih => simp [ih]

/-- Elementwise combination of an elementwise image with the array itself. -/
lemma zipWith_map_left_self (f : ℝ → ℝ → ℝ) (g : ℝ → ℝ) (l : List ℝ) :
    List.zipWith f (l.map g) l = l.map (fun x => f (g x) x) := by
  induction l with
  | nil => rfl
  | cons a t ih => simp [ih]

/-- For a model state whose volume array is the image of a function on the
grid, `normalisation` is the trapezoid value of the pointwise integrand. -/
lemma normalisation_eq_trapz_map (psi g : ℝ → ℝ) (st : RedshiftState)
    (hd : st.dvc_dz = st.zs.map g) :
    normalisation psi st
      = trapz (st.zs.map (fun z => psi z * g z / (1 + z))) st.zs := by
  unfold normalisation
  rw [hd, zipWith_map_same, zipWith_map_left_self]

/-- Scaling the sampled values scales the trapezoid value. -/
lemma trapz_map_mul (c : ℝ) : ∀ (ys xs : List ℝ),
    trapz (ys.map (fun y => c * y)) xs = c * trapz ys xs := by
  intro ys
  induction ys with
  | nil => intro xs; simp [trapz]
  | cons y0 yt ih =>
    intro xs
    cases yt with
    | nil => cases xs <;> simp [trapz]
    | cons y1 yt2 =>
      cases xs with
      | nil => simp [trapz]
      | cons x0 xt =>
        cases xt with
        | nil => simp [trapz]
        | cons x1 xt2 =>
          have h := ih (x1 :: xt2)
          simp only [List.map_cons, trapz] at h ⊢
          rw [h]
          ring

/-- The trapezoid rule integrates an affine integrand sampled on any grid
exactly, by telescoping. -/
lemma trapz_affine (a b : ℝ) : ∀ (xs : List ℝ),
    trapz (xs.map (fun x => a + b * x)) xs
      = a * (xs.getLast?.getD 0 - xs.head?.getD 0)
        + b / 2 * ((xs.getLast?.getD 0) ^ 2 - (xs.head?.getD 0) ^ 2) := by
  intro xs
  induction xs with
  | nil => simp [trapz]
  | cons x0 xt ih =>
    cases xt with
    | nil => simp [trapz]
    | cons x1 xt2 =>
      simp only [List.map_cons, trapz] at ih ⊢
      rw [show (x1 :: xt2).getLast?.getD 0 = (x0 :: x1 :: xt2).getLast?.getD 0 by
        simp [List.getLast?_cons_cons]] at ih
      rw [ih]
      simp only [List.head?_cons, Option.getD_some]
      ring

/-- The trapezoid value of non-negative samples on an ascending grid is
non-negative. -/
lemma trapz_nonneg : ∀ (ys xs : List ℝ), (∀ y ∈ ys, 0 ≤ y) →
    List.Chain' (· ≤ ·) xs → 0 ≤ trapz ys xs := by
  intro ys
  induction ys with
  | nil => intro xs _ _; simp [trapz]
  | cons y0 yt ih =>
    intro xs hy hx
    cases yt with
    | nil => cases xs <;> simp [trapz]
    | cons y1 yt2 =>
      cases xs with
      | nil => simp [trapz]
      | cons x0 xt =>
        cases xt with
        | nil => simp [trapz]
        | cons x1 xt2 =>
          simp only [trapz]
          have h01 : x0 ≤ x1 := (List.chain'_cons.1 hx).1
          have hy0 : 0 ≤ y0 := hy _ (by simp)
          have hy1 : 0 ≤ y1 := hy _ (by simp)
          have hrest : 0 ≤ trapz (y1 :: yt2) (x1 :: xt2) := by
            refine ih (x1 :: xt2) (fun y hYm => hy y ?_) (List.chain'_cons.1 hx).2
            simp at hYm ⊢
            tauto
          have hterm : 0 ≤ (y0 + y1) / 2 * (x1 - x0) := by
            apply mul_nonneg
            · linarith
            · linarith
          linarith

/-- The recursive trapezoid helper computes exactly the spec's indexed sum. -/
lemma trapz_map_eq_spec (g : ℝ → ℝ) : ∀ (xs : List ℝ),
    trapz (xs.map g) xs = trapzSpec g xs := by
  intro xs
  induction xs with
  | nil => simp [trapz, trapzSpec]
  | cons x0 xt ih =>
    cases xt with
    | nil => simp [trapz, trapzSpec]
    | cons x1 xt2 =>
      simp only [List.map_cons, trapz, trapzSpec] at ih ⊢
      rw [ih]
      have hlen : (x0 :: x1 :: xt2).length - 1 = ((x1 :: xt2).length - 1) + 1 := by
        simp
      rw [hlen, Finset.sum_range_succ']
      simp [List.getD_cons_succ, List.getD_cons_zero]
      ring

/-- A query at or below the first sample returns the first value
(numpy's left clamp). -/
lemma interp_of_le_head (x x0 y0 : ℝ) (xs ys : List ℝ) (hx : x ≤ x0)
    (hlen : xs.length = ys.length) :
    interp x (x0 :: xs) (y0 :: ys) = y0 := by
  cases xs with
  | nil =>
    cases ys with
    | nil => rfl
    | cons b t => simp at hlen
  | cons x1 xt =>
    cases ys with
    | nil => simp at hlen
    | cons y1 yt => simp [interp, hx]

/-- On a strictly ascending grid the first sample bounds the last. -/
lemma chain'_head_le_getLast (a : ℝ) : ∀ (l : List ℝ),
    List.Chain' (· < ·) (a :: l) → a ≤ (a :: l).getLast?.getD 0 := by
  intro l
  induction l generalizing a with
  | nil => simp
  | cons b t ih =>
    intro h
    have hab : a < b := (List.chain'_cons.1 h).1
    have hb := ih b (List.chain'_cons.1 h).2
    rw [List.getLast?_cons_cons]
    calc a ≤ b := le_of_lt hab
    _ ≤ _ := hb

/-- A query at or above the last sample returns the last value
(numpy's right clamp). -/
lemma interp_of_getLast_le (x : ℝ) : ∀ (xs ys : List ℝ),
    List.Chain' (· < ·) xs → xs.length = ys.length → xs ≠ [] →
    xs.getLast?.getD 0 ≤ x → interp x xs ys = ys.getLast?.getD 0 := by
  intro xs
  induction xs with
  | nil => intro ys _ _ hne; exact absurd rfl hne
  | cons x0 xt ih =>
    intro ys hchain hlen _ hlast
    cases xt with
    | nil =>
      cases ys with
      | nil => simp at hlen
      | cons y0 yt =>
        cases yt with
        | nil => simp [interp]
        | cons y1 yt2 => simp at hlen
    | cons x1 xt2 =>
      cases ys with
      | nil => simp at hlen
      | cons y0 yt =>
        cases yt with
        | nil => simp at hlen
        | cons y1 yt2 =>
          have h01 : x0 < x1 := (List.chain'_cons.1 hchain).1
          have htail : List.Chain' (· < ·) (x1 :: xt2) := (List.chain'_cons.1 hchain).2
          have hlast' : (x1 :: xt2).getLast?.getD 0 ≤ x := by
            rwa [List.getLast?_cons_cons] at hlast
          have hx1x : x1 ≤ x :=
            le_trans (chain'_head_le_getLast x1 xt2 htail) hlast'
          have hx0 : ¬ x ≤ x0 := by
            push_neg
            exact lt_of_lt_of_le h01 hx1x
          cases xt2 with
          | nil =>
            cases yt2 with
            | nil =>
              by_cases hx1b : x ≤ x1
              · have hxx1 : x = x1 := le_antisymm hx1b hx1x
                simp only [interp, if_neg hx0, if_pos hx1b]
                have hne : x1 - x0 ≠ 0 := sub_ne_zero.2 (ne_of_gt h01)
                have hgl : ((y0 :: y1 :: [] : List ℝ)).getLast?.getD 0 = y1 := by simp
                rw [hgl, hxx1, mul_div_assoc, div_self hne, mul_one]
                ring
              · simp only [interp, if_neg hx0, if_neg hx1b]
                simp [interp]
            | cons c t => simp at hlen
          | cons x2 xt3 =>
            have hrec : interp x (x1 :: x2 :: xt3) (y1 :: yt2)
                = (y1 :: yt2).getLast?.getD 0 := by
              refine ih (y1 :: yt2) htail ?_ (by simp) hlast'
              simpa using hlen
            by_cases hx1b : x ≤ x1
            · exfalso
              have hxx1 : x = x1 := le_antisymm hx1b hx1x
              have h4 : x1 < x2 := (List.chain'_cons.1 htail).1
              have h5 : x2 ≤ (x1 :: x2 :: xt3).getLast?.getD 0 := by
                rw [List.getLast?_cons_cons]
                exact chain'_head_le_getLast x2 xt3 (List.chain'_cons.1 htail).2
              have h6 : (x1 :: x2 :: xt3).getLast?.getD 0 ≤ x1 := hxx1 ▸ hlast'
              linarith
            · simp only [interp, if_neg hx0, if_neg hx1b]
              rw [hrec, List.getLast?_cons_cons]

/-- Linear interpolation of non-negative values on a strictly ascending grid
is non-negative (every interior value is a convex combination of two
samples; out-of-range queries are clamped to a sample). -/
lemma interp_nonneg (x : ℝ) : ∀ (xs ys : List ℝ),
    List.Chain' (· < ·) xs → (∀ y ∈ ys, 0 ≤ y) → 0 ≤ interp x xs ys := by
  intro xs
  induction xs with
  | nil => intro ys _ _; cases ys <;> simp [interp]
  | cons x0 xt ih =>
    intro ys hchain hy
    cases xt with
    | nil =>
      cases ys with
      | nil => simp [interp]
      | cons y0 yt =>
        cases yt with
        | nil => simpa [interp] using hy y0 (by simp)
        | cons y1 yt2 => simp [interp]
    | cons x1 xt2 =>
      cases ys with
      | nil => simp [interp]
      | cons y0 yt =>
        cases yt with
        | nil => simp [interp]
        | cons y1 yt2 =>
          have h01 : x0 < x1 := (List.chain'_cons.1 hchain).1
          have hy0 : 0 ≤ y0 := hy _ (by simp)
          have hy1 : 0 ≤ y1 := hy _ (by simp)
          simp only [interp]
          by_cases ha : x ≤ x0
          · simpa [ha] using hy0
          · by_cases hb : x ≤ x1
            · simp only [if_neg ha, if_pos hb]
              push_neg at ha
              have hd : 0 < x1 - x0 := sub_pos.2 h01
              have ht0 : 0 ≤ (x - x0) / (x1 - x0) :=
                div_nonneg (by linarith) (le_of_lt hd)
              have ht1 : (x - x0) / (x1 - x0) ≤ 1 := by
                rw [div_le_one hd]
                linarith
              have hconv : y0 + (y1 - y0) * (x - x0) / (x1 - x0)
                  = y0 * (1 - (x - x0) / (x1 - x0)) + y1 * ((x - x0) / (x1 - x0)) := by
                ring
              rw [hconv]
              have := mul_nonneg hy0 (by linarith : (0:ℝ) ≤ 1 - (x - x0) / (x1 - x0))
              have := mul_nonneg hy1 ht0
              linarith
            · simp only [if_neg ha, if_neg hb]
              refine ih (y1 :: yt2) (List.chain'_cons.1 hchain).2 ?_
              intro y hYm
              refine hy y ?_
              simp at hYm ⊢
              tauto

/-! ## Lemmas about `np.linspace` -/

lemma linspace_length (lo hi : ℝ) (n : ℕ) : (linspace lo hi n).length = n := by
  simp [linspace]

/-- Destructure a nonempty `linspace`: the first sample is `lo`. -/
lemma linspace_eq_cons (lo hi : ℝ) (n : ℕ) :
    linspace lo hi (n + 1)
      = lo :: (List.range n).map
          (fun i : ℕ => lo + (hi - lo) * ((i : ℝ) + 1) / (((n : ℝ) + 1) - 1)) := by
  unfold linspace
  rw [List.range_succ_eq_map, List.map_cons, List.map_map]
  congr 1
  · simp
  · apply List.map_congr_left
    intro i _
    simp only [Function.comp, Nat.succ_eq_add_one]
    push_cast
    ring

/-- For at least two samples the last sample is exactly `hi`. -/
lemma linspace_getLast (lo hi : ℝ) (m : ℕ) (hm : 1 ≤ m) :
    (linspace lo hi (m + 1)).getLast?.getD 0 = hi := by
  unfold linspace
  rw [List.range_succ, List.map_append]
  simp only [List.map_cons, List.map_nil, List.getLast?_concat, Option.getD_some]
  have hm' : ((m : ℝ)) ≠ 0 := by
    have : (1 : ℝ) ≤ (m : ℝ) := by exact_mod_cast hm
    linarith
  have hden : ((m : ℝ) + 1) - 1 = (m : ℝ) := by ring
  push_cast
  rw [hden, mul_div_assoc, div_self hm', mul_one]
  ring

/-- Every sample of `linspace lo hi n` lies in `[lo, hi]` when `lo ≤ hi`. -/
lemma linspace_mem_bounds {lo hi z : ℝ} {n : ℕ} (hlh : lo ≤ hi)
    (hz : z ∈ linspace lo hi n) : lo ≤ z ∧ z ≤ hi := by
  simp only [linspace, List.mem_map, List.mem_range] at hz
  obtain ⟨i, hilt, rfl⟩ := hz
  have h0 : (0 : ℝ) ≤ hi - lo := by linarith
  rcases Nat.lt_or_ge i 1 with h1 | h1
  · have hi0 : i = 0 := by omega
    subst hi0
    simp
    exact hlh
  · have hn : 2 ≤ n := by omega
    have hd : (0 : ℝ) < (n : ℝ) - 1 := by
      have : (2 : ℝ) ≤ (n : ℝ) := by exact_mod_cast hn
      linarith
    have hi' : (i : ℝ) ≤ (n : ℝ) - 1 := by
      have : (i : ℝ) + 1 ≤ (n : ℝ) := by exact_mod_cast hilt
      linarith
    constructor
    · have : 0 ≤ (hi - lo) * (i : ℝ) / ((n : ℝ) - 1) :=
        div_nonneg (mul_nonneg h0 (Nat.cast_nonneg i)) (le_of_lt hd)
      linarith
    · have hle : (hi - lo) * (i : ℝ) / ((n : ℝ) - 1) ≤ hi - lo := by
        rw [div_le_iff₀ hd]
        nlinarith
      linarith

/-- `linspace` is strictly increasing when `lo < hi`. -/
lemma linspace_chain' (lo hi : ℝ) (n : ℕ) (h : lo < hi) :
    List.Chain' (· < ·) (linspace lo hi n) := by
  unfold linspace
  rw [List.chain'_map]
  cases n with
  | zero => simp
  | succ m =>
    rw [List.chain'_range_succ]
    intro i him
    have hm : 1 ≤ m := by omega
    have hd : (0 : ℝ) < ((m + 1 : ℕ) : ℝ) - 1 := by
      have : (1 : ℝ) ≤ (m : ℝ) := by exact_mod_cast hm
      push_cast
      linarith
    have hlo : (0 : ℝ) < hi - lo := by linarith
    have hnum : (hi - lo) * (i : ℝ) < (hi - lo) * ((i.succ : ℕ) : ℝ) := by
      have : (i : ℝ) < ((i.succ : ℕ) : ℝ) := by
        push_cast
        linarith
      exact mul_lt_mul_of_pos_left this hlo
    exact add_lt_add_left (div_lt_div_of_pos_right hnum hd) lo

/-! ## Structural lemmas about `probability` -/

/-- The in-place product of two elementwise images of the same array is the
elementwise product (the broadcast case only arises for one-element data,
where it agrees). -/
lemma mulBroadcast_maps (f g : ℝ → ℝ) (data : List ℝ) :
    mulBroadcast (data.map f) (data.map g) = data.map (fun z => f z * g z) := by
  unfold mulBroadcast
  by_cases h : (data.map g).length = 1
  · rw [if_pos h]
    rw [List.length_map] at h
    obtain ⟨a, rfl⟩ := List.length_eq_one.1 h
    simp
  · rw [if_neg h, zipWith_map_same]

/-- The in-place product keeps the length of its left factor whenever numpy
would accept it. -/
lemma mulBroadcast_length (pz c : List ℝ)
    (h : c.length = pz.length ∨ c.length = 1) :
    (mulBroadcast pz c).length = pz.length := by
  unfold mulBroadcast
  by_cases h1 : c.length = 1
  · rw [if_pos h1, List.length_map]
  · rw [if_neg h1, List.length_zipWith]
    rcases h with h | h
    · rw [h, min_self]
    · exact absurd h h1

/-- `probability` never changes the grid, volume array, or `z_max` of the
instance: only the cache slot mutates. -/
lemma probability_preserves_fields (psi : ℝ → ℝ) (st : RedshiftState)
    (data : List ℝ) :
    (probability psi st data).2.zs = st.zs
    ∧ (probability psi st data).2.dvc_dz = st.dvc_dz
    ∧ (probability psi st data).2.z_max = st.z_max := by
  unfold probability
  cases st.cached_dvc_dz with
  | none => exact ⟨rfl, rfl, rfl⟩
  | some c =>
    dsimp only
    by_cases h : c.length = (p_z psi st data).length ∨ c.length = 1
    · rw [if_pos h]
      exact ⟨rfl, rfl, rfl⟩
    · rw [if_neg h]
      exact ⟨rfl, rfl, rfl⟩

/-- Whenever the call recomputes the cache (`None` cache, or a cached array
that numpy cannot broadcast against the dataset), `probability` returns the
freshly interpolated formula and stores the fresh interpolation. -/
lemma probability_recompute (psi : ℝ → ℝ) (st : RedshiftState) (data : List ℝ)
    (hc : st.cached_dvc_dz = none
      ∨ ∀ c, st.cached_dvc_dz = some c →
          ¬(c.length = data.length ∨ c.length = 1)) :
    probability psi st data
      = (data.map (fun z => psi z / (1 + z) / normalisation psi st
            * interp z st.zs st.dvc_dz),
         { st with cached_dvc_dz := some (cache_dvc_dz st data) }) := by
  unfold probability
  cases hcc : st.cached_dvc_dz with
  | none =>
    dsimp only
    rw [show p_z psi st data
        = data.map (fun z => psi z / (1 + z) / normalisation psi st) from rfl,
      show cache_dvc_dz st data = data.map (fun z => interp z st.zs st.dvc_dz)
        from rfl, mulBroadcast_maps]
  | some c =>
    rcases hc with hnone | hsome
    · rw [hcc] at hnone
      simp at hnone
    · have hinc := hsome c hcc
      dsimp only
      rw [if_neg (by simpa [p_z] using hinc)]
      rw [show p_z psi st data
          = data.map (fun z => psi z / (1 + z) / normalisation psi st) from rfl,
        show cache_dvc_dz st data = data.map (fun z => interp z st.zs st.dvc_dz)
          from rfl, mulBroadcast_maps]

/-- Whenever numpy accepts the in-place product with the cached array (same
length, or broadcastable length 1), `probability` reuses the cache as-is and
leaves the instance unchanged. -/
lemma probability_reuse (psi : ℝ → ℝ) (st : RedshiftState) (data : List ℝ)
    (c : List ℝ) (hcc : st.cached_dvc_dz = some c)
    (hok : c.length = data.length ∨ c.length = 1) :
    probability psi st data = (mulBroadcast (p_z psi st data) c, st) := by
  unfold probability
  rw [hcc]
  dsimp only
  rw [if_pos (by simpa [p_z] using hok)]

/-- The interpolation cache always has the length of the dataset it was
computed from. -/
lemma cache_dvc_dz_length (st : RedshiftState) (data : List ℝ) :
    (cache_dvc_dz st data).length = data.length := by
  simp [cache_dvc_dz]

/-- Calling `probability` twice with the identical dataset gives identical
results, from any starting cache state. -/
lemma probability_idempotent (psi : ℝ → ℝ) (st : RedshiftState) (data : List ℝ) :
    (probability psi ((probability psi st data).2) data).1
      = (probability psi st data).1 := by
  cases hcc : st.cached_dvc_dz with
  | none =>
    have h1 := probability_recompute psi st data (Or.inl hcc)
    rw [h1]
    dsimp only
    rw [probability_reuse psi _ data (cache_dvc_dz st data) rfl
      (Or.inl (cache_dvc_dz_length st data))]
    rw [show p_z psi { st with cached_dvc_dz := some (cache_dvc_dz st data) } data
        = data.map (fun z => psi z / (1 + z) / normalisation psi st) from rfl,
      show cache_dvc_dz st data = data.map (fun z => interp z st.zs st.dvc_dz)
        from rfl, mulBroadcast_maps]
  | some c =>
    by_cases hok : c.length = data.length ∨ c.length = 1
    · have h1 := probability_reuse psi st data c hcc hok
      rw [h1]
      dsimp only
      rw [h1]
    · have hinc : st.cached_dvc_dz = none
          ∨ ∀ c', st.cached_dvc_dz = some c' →
              ¬(c'.length = data.length ∨ c'.length = 1) := by
        refine Or.inr fun c' hc' => ?_
        rw [hcc] at hc'
        injection hc' with h
        rw [← h]
        exact hok
      have h1 := probability_recompute psi st data hinc
      rw [h1]
      dsimp only
      rw [probability_reuse psi _ data (cache_dvc_dz st data) rfl
        (Or.inl (cache_dvc_dz_length st data))]
      rw [show p_z psi { st with cached_dvc_dz := some (cache_dvc_dz st data) } data
          = data.map (fun z => psi z / (1 + z) / normalisation psi st) from rfl,
        show cache_dvc_dz st data = data.map (fun z => interp z st.zs st.dvc_dz)
          from rfl, mulBroadcast_maps]

/-- From a fresh instance, evaluating dataset `A`, then a differently shaped
dataset `B` that is not a bare one-element array (unless `A` is), then `A`
again reproduces the first result: the third call either still holds, or
recomputes, `A`'s own interpolation. -/
lemma probability_aba (psi : ℝ → ℝ) (st : RedshiftState) (A B : List ℝ)
    (hfresh : st.cached_dvc_dz = none) (hAB : A.length ≠ B.length)
    (hB : B.length ≠ 1 ∨ A.length = 1) :
    (probability psi ((probability psi ((probability psi st A).2) B).2) A).1
      = (probability psi st A).1 := by
  have h1 := probability_recompute psi st A (Or.inl hfresh)
  rw [h1]
  dsimp only
  by_cases hA1 : A.length = 1
  · -- the cached one-element array broadcasts against B, so the cache
    -- survives call 2 intact and is reused, correctly, for call 3
    have hlenA : (cache_dvc_dz st A).length = 1 := by
      rw [cache_dvc_dz_length]; exact hA1
    rw [probability_reuse psi _ B (cache_dvc_dz st A) rfl (Or.inr hlenA)]
    dsimp only
    rw [probability_reuse psi _ A (cache_dvc_dz st A) rfl
      (Or.inl (by rw [cache_dvc_dz_length]))]
    rw [show p_z psi { st with cached_dvc_dz := some (cache_dvc_dz st A) } A
        = A.map (fun z => psi z / (1 + z) / normalisation psi st) from rfl,
      show cache_dvc_dz st A = A.map (fun z => interp z st.zs st.dvc_dz)
        from rfl, mulBroadcast_maps]
  · have hB1 : B.length ≠ 1 := hB.resolve_right hA1
    have h2 := probability_recompute psi
      { st with cached_dvc_dz := some (cache_dvc_dz st A) } B
      (Or.inr fun c' hc' => by
        have hc'' : cache_dvc_dz st A = c' := by
          have hs : some (cache_dvc_dz st A) = some c' := hc'
          injection hs
        rw [← hc'', cache_dvc_dz_length]
        push_neg
        exact ⟨hAB, hA1⟩)
    rw [h2]
    dsimp only
    have h3 := probability_recompute psi
      { { st with cached_dvc_dz := some (cache_dvc_dz st A) } with
          cached_dvc_dz := some (cache_dvc_dz
            { st with cached_dvc_dz := some (cache_dvc_dz st A) } B) } A
      (Or.inr fun c' hc' => by
        have hc'' : cache_dvc_dz
            { st with cached_dvc_dz := some (cache_dvc_dz st A) } B = c' := by
          have hs : some (cache_dvc_dz
              { st with cached_dvc_dz := some (cache_dvc_dz st A) } B)
            = some c' := hc'
          injection hs
        rw [← hc'', cache_dvc_dz_length]
        push_neg
        exact ⟨fun hh => hAB hh.symm, hB1⟩)
    rw [h3]
    rfl

/-! ## Scale invariance of `probability` in `psi_of_z` -/

/-- Pulling a constant out of the left argument of an elementwise operation
that commutes with scaling. -/
lemma zipWith_smul_left (c : ℝ) (f : ℝ → ℝ → ℝ)
    (hf : ∀ a b, f (c * a) b = c * f a b) :
    ∀ (l1 l2 : List ℝ), List.zipWith f (l1.map (fun y => c * y)) l2
      = (List.zipWith f l1 l2).map (fun y => c * y) := by
  intro l1
  induction l1 with
  | nil => intro l2; simp
  | cons a t ih =>
    intro l2
    cases l2 with
    | nil => simp
    | cons b t2 => simp [ih, hf]

/-- `normalisation` is linear in `psi_of_z`. -/
lemma normalisation_smul (c : ℝ) (psi : ℝ → ℝ) (st : RedshiftState) :
    normalisation (fun z => c * psi z) st = c * normalisation psi st := by
  unfold normalisation
  rw [show (fun z => c * psi z) = ((fun y => c * y) ∘ psi) from rfl,
    ← List.map_map,
    zipWith_smul_left c (fun p d => p * d) (fun a b => by ring),
    zipWith_smul_left c (fun pd z => pd / (1 + z)) (fun a b => by ring),
    trapz_map_mul]

/-- Scaling `psi_of_z` by a nonzero constant cancels between the numerator
and the normalisation integral, leaving `probability` unchanged (result and
cache state alike). -/
lemma probability_smul (psi : ℝ → ℝ) (st : RedshiftState) (data : List ℝ)
    (c : ℝ) (hc : c ≠ 0) :
    probability (fun z => c * psi z) st data = probability psi st data := by
  have hpz : p_z (fun z => c * psi z) st data = p_z psi st data := by
    unfold p_z
    rw [normalisation_smul]
    apply List.map_congr_left
    intro z _
    rw [div_div, div_div,
      show (1 + z) * (c * normalisation psi st)
        = c * ((1 + z) * normalisation psi st) by ring,
      mul_div_mul_left _ _ hc]
  unfold probability
  rw [hpz]

/-- C10: `probability` is invariant under rescaling `psi_of_z` by any
positive constant — the factor enters the numerator and the normalisation
integral linearly and cancels exactly, so any overall normalisation constant
built into the power-law helper cannot affect the output (nor the cache). -/
theorem probability_psi_scale_invariant (psi : ℝ → ℝ) (st : RedshiftState)
    (data : List ℝ) (c : ℝ) (hc : 0 < c) :
    probability (fun z => c * psi z) st data = probability psi st data :=
  probability_smul psi st data c (ne_of_gt hc)

/-- Witness for C10 on a concrete instance, dataset and constant. -/
theorem probability_psi_scale_invariant_witness :
    probability (fun z => 2 * (fun _ : ℝ => (1 : ℝ)) z)
        ⟨1, [0, 1], [1, 1], none⟩ [1 / 2]
      = probability (fun _ : ℝ => (1 : ℝ)) ⟨1, [0, 1], [1, 1], none⟩ [1 / 2] :=
  probability_psi_scale_invariant (fun _ => 1) ⟨1, [0, 1], [1, 1], none⟩
    [1 / 2] 2 (by norm_num)

/-! ## The concrete `psi_of_z` variants -/

/-- Inside `[0, z_max]` the power-law weighting is the plain power. -/
lemma psi_of_z_powerlaw_in_range (z_max lamb z : ℝ) (h0 : 0 ≤ z)
    (h1 : z ≤ z_max) :
    PowerLawRedshift.psi_of_z z_max lamb z = (1 + z) ^ lamb := by
  unfold PowerLawRedshift.psi_of_z powerlaw
  rw [if_pos ⟨by linarith, by linarith⟩]

/-- Beyond `z_max` the helper's domain truncation makes the power-law
weighting vanish. -/
lemma psi_of_z_powerlaw_above (z_max lamb z : ℝ) (h : z_max < z) :
    PowerLawRedshift.psi_of_z z_max lamb z = 0 := by
  unfold PowerLawRedshift.psi_of_z powerlaw
  rw [if_neg]
  rintro ⟨-, h2⟩
  linarith

/-- The power-law weighting is non-negative everywhere. -/
lemma psi_of_z_powerlaw_nonneg (z_max lamb z : ℝ) :
    0 ≤ PowerLawRedshift.psi_of_z z_max lamb z := by
  unfold PowerLawRedshift.psi_of_z powerlaw
  split_ifs with h
  · exact Real.rpow_nonneg (by linarith [h.1]) _
  · exact le_refl 0

/-- With `kappa = 0` the Madau-Dickinson weighting is exactly half the
power-law weighting with `alpha = gamma`, at every redshift. -/
lemma psi_of_z_md_kappa_zero (z_max gamma z_peak z : ℝ) :
    MadauDickinsonRedshift.psi_of_z z_max gamma 0 z_peak z
      = (1 / 2) * PowerLawRedshift.psi_of_z z_max gamma z := by
  unfold MadauDickinsonRedshift.psi_of_z PowerLawRedshift.psi_of_z
  rw [Real.rpow_zero]
  ring

/-- C7 (amended): the peaked-evolution model degenerates to the power-law
model for `kappa = 0` (not `kappa = gamma`): with `kappa = 0` the peak
denominator is the constant 2, which cancels through the normalisation, so
`probability` agrees exactly with the power-law model with `alpha = gamma`,
for every state, dataset, `gamma` and `z_peak`. -/
theorem md_kappa_zero_matches_powerlaw (z_max gamma z_peak : ℝ)
    (st : RedshiftState) (data : List ℝ) :
    probability (MadauDickinsonRedshift.psi_of_z z_max gamma 0 z_peak) st data
      = probability (PowerLawRedshift.psi_of_z z_max gamma) st data := by
  have hfun : MadauDickinsonRedshift.psi_of_z z_max gamma 0 z_peak
      = fun z => (1 / 2) * PowerLawRedshift.psi_of_z z_max gamma z :=
    funext fun z => psi_of_z_md_kappa_zero z_max gamma z_peak z
  rw [hfun, probability_smul _ _ _ _ (by norm_num)]

/-- Members of an elementwise combination come from the two arrays. -/
lemma mem_zipWith {f : ℝ → ℝ → ℝ} : ∀ {l1 l2 : List ℝ} {y : ℝ},
    y ∈ List.zipWith f l1 l2 → ∃ a, a ∈ l1 ∧ ∃ b, b ∈ l2 ∧ y = f a b := by
  intro l1
  induction l1 with
  | nil => intro l2 y h; simp at h
  | cons a t ih =>
    intro l2 y h
    cases l2 with
    | nil => simp at h
    | cons b t2 =>
      simp only [List.zipWith_cons_cons, List.mem_cons] at h
      rcases h with h | h
      · exact ⟨a, by simp, b, by simp, h⟩
      · obtain ⟨a', ha', b', hb', rfl⟩ := ih h
        exact ⟨a', by simp [ha'], b', by simp [hb'], rfl⟩

/-- `normalisation` only sees `psi_of_z` through its values on the grid. -/
lemma normalisation_congr_psi (psi1 psi2 : ℝ → ℝ) (st : RedshiftState)
    (h : ∀ z ∈ st.zs, psi1 z = psi2 z) :
    normalisation psi1 st = normalisation psi2 st := by
  unfold normalisation
  rw [List.map_congr_left h]

/-- The normalisation integral of a non-negative weighting against
non-negative volumes on an ascending non-negative grid is non-negative. -/
lemma normalisation_nonneg (psi : ℝ → ℝ) (st : RedshiftState)
    (hchain : st.zs.Chain' (· < ·)) (hpsi : ∀ z, 0 ≤ psi z)
    (hdvc : ∀ d ∈ st.dvc_dz, 0 ≤ d) (hgz : ∀ z ∈ st.zs, 0 ≤ z) :
    0 ≤ normalisation psi st := by
  unfold normalisation
  apply trapz_nonneg
  · intro y hy
    obtain ⟨pd, hpd, z, hz, rfl⟩ := mem_zipWith hy
    obtain ⟨p, hp, d, hd, rfl⟩ := mem_zipWith hpd
    obtain ⟨z', _, rfl⟩ := List.mem_map.1 hp
    have h1z : (0 : ℝ) ≤ 1 + z := by linarith [hgz z hz]
    exact div_nonneg (mul_nonneg (hpsi z') (hdvc d hd)) h1z
  · exact hchain.imp fun a b hab => le_of_lt hab

/-- `probability` always returns an array of the dataset's length: a missing
or incompatible cache is recovered internally, never surfaced. -/
lemma probability_length (psi : ℝ → ℝ) (st : RedshiftState) (data : List ℝ) :
    (probability psi st data).1.length = data.length := by
  unfold probability
  cases hcc : st.cached_dvc_dz with
  | none =>
    dsimp only
    rw [mulBroadcast_length _ _
      (Or.inl (by rw [cache_dvc_dz_length]; simp [p_z]))]
    simp [p_z]
  | some c =>
    dsimp only
    split_ifs with h
    · rw [mulBroadcast_length _ _ h]
      simp [p_z]
    · rw [mulBroadcast_length _ _
        (Or.inl (by rw [cache_dvc_dz_length]; simp [p_z]))]
      simp [p_z]

/-! ## Claim theorems for the redshift model family -/

/-- C1 (amended): on every call that recomputes the interpolation cache
(absent cache — e.g. any fresh instance — or a cached array numpy cannot
broadcast), `probability` returns exactly
`psi_of_z(z) / (1 + z) / normalisation` times the volume term linearly
interpolated at the dataset redshifts; in every case the result has the
dataset's shape, and under the model-family contract (non-negative
`psi_of_z`, non-negative volumes, strictly ascending non-negative grid,
non-negative dataset redshifts) all entries are non-negative.  (Without the
recompute condition the multiplier can instead be a stale cached
interpolation from an earlier same-length dataset.) -/
theorem probability_formula_shape_nonneg (psi : ℝ → ℝ) (st : RedshiftState)
    (data : List ℝ) (hchain : st.zs.Chain' (· < ·)) (hpsi : ∀ z, 0 ≤ psi z)
    (hdvc : ∀ d ∈ st.dvc_dz, 0 ≤ d) (hgz : ∀ z ∈ st.zs, 0 ≤ z)
    (hdz : ∀ z ∈ data, 0 ≤ z)
    (hcache : st.cached_dvc_dz = none
      ∨ ∀ c, st.cached_dvc_dz = some c →
          ¬(c.length = data.length ∨ c.length = 1)) :
    (probability psi st data).1
      = data.map (fun z => psi z / (1 + z) / normalisation psi st
          * interp z st.zs st.dvc_dz)
    ∧ (probability psi st data).1.length = data.length
    ∧ ∀ p ∈ (probability psi st data).1, 0 ≤ p := by
  have hform : (probability psi st data).1
      = data.map (fun z => psi z / (1 + z) / normalisation psi st
          * interp z st.zs st.dvc_dz) := by
    rw [probability_recompute psi st data hcache]
  refine ⟨hform, probability_length psi st data, ?_⟩
  rw [hform]
  intro p hp
  obtain ⟨z, hz, rfl⟩ := List.mem_map.1 hp
  have h1z : (0 : ℝ) ≤ 1 + z := by linarith [hdz z hz]
  have hN : 0 ≤ normalisation psi st :=
    normalisation_nonneg psi st hchain hpsi hdvc hgz
  exact mul_nonneg (div_nonneg (div_nonneg (hpsi z) h1z) hN)
    (interp_nonneg z st.zs st.dvc_dz hchain hdvc)

/-- Witness for C1 on a concrete fresh two-point instance. -/
theorem probability_formula_shape_nonneg_witness :
    (probability (fun _ : ℝ => (1 : ℝ)) ⟨1, [0, 1], [2, 3], none⟩ [1 / 2]).1
      = [(1 : ℝ) / 2].map (fun z => (1 : ℝ) / (1 + z)
          / normalisation (fun _ : ℝ => (1 : ℝ)) ⟨1, [0, 1], [2, 3], none⟩
          * interp z [0, 1] [2, 3])
    ∧ (probability (fun _ : ℝ => (1 : ℝ)) ⟨1, [0, 1], [2, 3], none⟩ [1 / 2]).1.length
        = ([(1 : ℝ) / 2]).length
    ∧ ∀ p ∈ (probability (fun _ : ℝ => (1 : ℝ)) ⟨1, [0, 1], [2, 3], none⟩ [1 / 2]).1,
        0 ≤ p :=
  probability_formula_shape_nonneg (fun _ => 1) ⟨1, [0, 1], [2, 3], none⟩ [1 / 2]
    (by norm_num) (fun _ => by norm_num) (by norm_num) (by norm_num)
    (by norm_num) (Or.inl rfl)

/-- C2: `normalisation` is exactly the trapezoidal-rule integral, over the
fixed 1000-point internal grid, of `psi_of_z` times (volume term / (1+z)),
for every weighting, cosmology and `z_max` — stated against an independent
indexed-sum rendering of the trapezoid rule.  It is a pure function of the
per-call parameters (through `psi`) and the immutable grid data: the cache
slot never enters, so each `probability` call divides by a fresh evaluation
at its own parameters. -/
theorem normalisation_is_trapezoid_integral (psi dvc : ℝ → ℝ) (z_max : ℝ) :
    normalisation psi (mkRedshiftState dvc z_max)
      = trapzSpec (fun z => psi z * (dvc z * 4 * Real.pi) / (1 + z))
          (linspace (1 / 1000) z_max 1000) := by
  have hd : (mkRedshiftState dvc z_max).dvc_dz
      = (mkRedshiftState dvc z_max).zs.map (fun z => dvc z * 4 * Real.pi) := by
    simp only [mkRedshiftState]
  rw [normalisation_eq_trapz_map psi _ _ hd]
  have hzs : (mkRedshiftState dvc z_max).zs = linspace (1 / 1000) z_max 1000 := by
    simp only [mkRedshiftState]
  rw [hzs]
  exact trapz_map_eq_spec _ _

/-- C9: boundary safety of the power-law model.  The weighting vanishes
beyond `z_max` by domain truncation and is the plain power at `z_max`;
`probability` is total with the dataset's shape for any dataset including
boundary and beyond-boundary redshifts; interpolation at or beyond the last
grid point is defined and clamps to the last volume value; and on a fresh
cache every output entry at a redshift beyond `z_max` is exactly zero. -/
theorem probability_boundary_safe (z_max lamb : ℝ) (st : RedshiftState)
    (data : List ℝ) (hchain : st.zs.Chain' (· < ·))
    (hlen : st.zs.length = st.dvc_dz.length) (hne : st.zs ≠ [])
    (hzm : 0 ≤ z_max) :
    (∀ z, z_max < z → PowerLawRedshift.psi_of_z z_max lamb z = 0)
    ∧ PowerLawRedshift.psi_of_z z_max lamb z_max = (1 + z_max) ^ lamb
    ∧ (probability (PowerLawRedshift.psi_of_z z_max lamb) st data).1.length
        = data.length
    ∧ (∀ x, st.zs.getLast?.getD 0 ≤ x →
        interp x st.zs st.dvc_dz = st.dvc_dz.getLast?.getD 0)
    ∧ (st.cached_dvc_dz = none →
        (probability (PowerLawRedshift.psi_of_z z_max lamb) st data).1
          = data.map (fun z => PowerLawRedshift.psi_of_z z_max lamb z / (1 + z)
              / normalisation (PowerLawRedshift.psi_of_z z_max lamb) st
              * interp z st.zs st.dvc_dz)
        ∧ ∀ z, z_max < z →
            PowerLawRedshift.psi_of_z z_max lamb z / (1 + z)
              / normalisation (PowerLawRedshift.psi_of_z z_max lamb) st
              * interp z st.zs st.dvc_dz = 0) := by
  refine ⟨fun z hz => psi_of_z_powerlaw_above z_max lamb z hz,
    psi_of_z_powerlaw_in_range z_max lamb z_max hzm le_rfl,
    probability_length _ st data,
    fun x hx => interp_of_getLast_le x st.zs st.dvc_dz hchain hlen hne hx,
    fun hcc => ⟨by rw [probability_recompute _ st data (Or.inl hcc)],
      fun z hz => by rw [psi_of_z_powerlaw_above z_max lamb z hz]; simp⟩⟩

/-- Witness for C9 on a concrete instance with a dataset containing `z_max`
itself and a value beyond it. -/
theorem probability_boundary_safe_witness :
    (∀ z, (1 : ℝ) < z → PowerLawRedshift.psi_of_z 1 1 z = 0)
    ∧ PowerLawRedshift.psi_of_z 1 1 1 = ((1 : ℝ) + 1) ^ (1 : ℝ)
    ∧ (probability (PowerLawRedshift.psi_of_z 1 1)
        ⟨1, [0, 1], [2, 3], none⟩ [1, 2]).1.length = ([(1 : ℝ), 2]).length
    ∧ (∀ x, ([(0 : ℝ), 1]).getLast?.getD 0 ≤ x →
        interp x [0, 1] [2, 3] = ([(2 : ℝ), 3]).getLast?.getD 0)
    ∧ ((⟨1, [0, 1], [2, 3], none⟩ : RedshiftState).cached_dvc_dz = none →
        (probability (PowerLawRedshift.psi_of_z 1 1)
            ⟨1, [0, 1], [2, 3], none⟩ [1, 2]).1
          = [(1 : ℝ), 2].map (fun z => PowerLawRedshift.psi_of_z 1 1 z / (1 + z)
              / normalisation (PowerLawRedshift.psi_of_z 1 1)
                  ⟨1, [0, 1], [2, 3], none⟩
              * interp z [0, 1] [2, 3])
        ∧ ∀ z, (1 : ℝ) < z →
            PowerLawRedshift.psi_of_z 1 1 z / (1 + z)
              / normalisation (PowerLawRedshift.psi_of_z 1 1)
                  ⟨1, [0, 1], [2, 3], none⟩
              * interp z [0, 1] [2, 3] = 0) :=
  probability_boundary_safe 1 1 ⟨1, [0, 1], [2, 3], none⟩ [1, 2]
    (by norm_num) rfl (by simp) (by norm_num)

/-- C3 (amended): calling `probability` twice with the identical dataset
returns identical results from any starting state; from a fresh instance the
dataset sequence A, B, A with `B` of a different shape reproduces the first
result on the third call provided `B` is not a one-element array while `A`
has several elements (a one-element cache broadcasts against anything, so a
stale one-element cache from `B` would silently be reused); and no cache
miss or shape mismatch surfaces as an error — every call returns an array of
the dataset's shape.  (The unamended "depends only on dataset and
parameters" fails: a same-length dataset reuses the previous dataset's
cached interpolation.) -/
theorem probability_cache_scenarios (psi : ℝ → ℝ) (st : RedshiftState)
    (A B : List ℝ) :
    ((probability psi ((probability psi st A).2) A).1
        = (probability psi st A).1)
    ∧ (st.cached_dvc_dz = none → A.length ≠ B.length →
        (B.length ≠ 1 ∨ A.length = 1) →
        (probability psi ((probability psi ((probability psi st A).2) B).2) A).1
          = (probability psi st A).1)
    ∧ ∀ data : List ℝ, (probability psi st data).1.length = data.length :=
  ⟨probability_idempotent psi st A,
   fun h1 h2 h3 => probability_aba psi st A B h1 h2 h3,
   fun data => probability_length psi st data⟩

/-- Witness for C3 on a concrete fresh instance with `A` of length 2 and `B`
of length 3. -/
theorem probability_cache_scenarios_witness :
    ((probability (fun _ : ℝ => (1 : ℝ))
        ((probability (fun _ : ℝ => (1 : ℝ))
          ⟨1, [0, 1], [2, 3], none⟩ [0, 1]).2) [0, 1]).1
      = (probability (fun _ : ℝ => (1 : ℝ)) ⟨1, [0, 1], [2, 3], none⟩ [0, 1]).1)
    ∧ ((probability (fun _ : ℝ => (1 : ℝ))
        ((probability (fun _ : ℝ => (1 : ℝ))
          ((probability (fun _ : ℝ => (1 : ℝ))
            ⟨1, [0, 1], [2, 3], none⟩ [0, 1]).2) [0, 1 / 2, 1]).2) [0, 1]).1
      = (probability (fun _ : ℝ => (1 : ℝ)) ⟨1, [0, 1], [2, 3], none⟩ [0, 1]).1) :=
  ⟨(probability_cache_scenarios (fun _ => 1) ⟨1, [0, 1], [2, 3], none⟩
      [0, 1] [0, 1 / 2, 1]).1,
   (probability_cache_scenarios (fun _ => 1) ⟨1, [0, 1], [2, 3], none⟩
      [0, 1] [0, 1 / 2, 1]).2.1 rfl (by simp) (Or.inl (by simp))⟩

/-- C8: with `alpha = 0` the power-law weighting is the constant 1 on
`[0, z_max]`, and `probability` on a fresh instance reduces to the
volume-only density: the interpolated volume term divided by `(1 + z)` and
by the normalisation integral of the constant-1 weighting. -/
theorem powerlaw_zero_alpha_volume_only (dvc : ℝ → ℝ) (z_max : ℝ)
    (hzm : 1 / 1000 ≤ z_max) (data : List ℝ)
    (hdata : ∀ z ∈ data, 0 ≤ z ∧ z ≤ z_max) :
    (∀ z, 0 ≤ z → z ≤ z_max → PowerLawRedshift.psi_of_z z_max 0 z = 1)
    ∧ (probability (PowerLawRedshift.psi_of_z z_max 0)
          (mkRedshiftState dvc z_max) data).1
      = data.map (fun z =>
          interp z (mkRedshiftState dvc z_max).zs
              (mkRedshiftState dvc z_max).dvc_dz
            / (1 + z)
            / normalisation (fun _ => 1) (mkRedshiftState dvc z_max)) := by
  have hpsi1 : ∀ z, 0 ≤ z → z ≤ z_max →
      PowerLawRedshift.psi_of_z z_max 0 z = 1 := by
    intro z h0 h1
    rw [psi_of_z_powerlaw_in_range z_max 0 z h0 h1, Real.rpow_zero]
  refine ⟨hpsi1, ?_⟩
  have hcc : (mkRedshiftState dvc z_max).cached_dvc_dz = none := by
    simp only [mkRedshiftState]
  rw [probability_recompute _ _ data (Or.inl hcc)]
  have hN : normalisation (PowerLawRedshift.psi_of_z z_max 0)
      (mkRedshiftState dvc z_max)
      = normalisation (fun _ => 1) (mkRedshiftState dvc z_max) := by
    apply normalisation_congr_psi
    intro z hz
    rw [show (mkRedshiftState dvc z_max).zs = linspace (1 / 1000) z_max 1000
      from by simp only [mkRedshiftState]] at hz
    have hzb := linspace_mem_bounds (by linarith : (1 : ℝ) / 1000 ≤ z_max) hz
    exact hpsi1 z (by linarith [hzb.1]) hzb.2
  apply List.map_congr_left
  intro z hz
  rw [hpsi1 z (hdata z hz).1 (hdata z hz).2, hN]
  ring

/-- Witness for C8 with a constant cosmology, `z_max = 1`, and the dataset
`[1/2]`. -/
theorem powerlaw_zero_alpha_volume_only_witness :
    (∀ z, 0 ≤ z → z ≤ (1 : ℝ) → PowerLawRedshift.psi_of_z 1 0 z = 1)
    ∧ (probability (PowerLawRedshift.psi_of_z 1 0)
          (mkRedshiftState (fun _ => 1) 1) [1 / 2]).1
      = [(1 : ℝ) / 2].map (fun z =>
          interp z (mkRedshiftState (fun _ => 1) 1).zs
              (mkRedshiftState (fun _ => 1) 1).dvc_dz
            / (1 + z)
            / normalisation (fun _ => 1) (mkRedshiftState (fun _ => 1) 1)) :=
  powerlaw_zero_alpha_volume_only (fun _ => 1) 1 (by norm_num) [1 / 2]
    (by intro z hz; simp at hz; subst hz; norm_num)

/-! ## A concrete cosmology provider for counterexample evaluations

The cosmology provider is an external collaborator with no specified
formula, so claims quantified over "every model instance" must hold for
every provider.  The provider below makes the integrands affine on the grid,
so the 1000-point trapezoid normalisations have closed forms. -/

lemma mk_zs (dvc : ℝ → ℝ) (z_max : ℝ) :
    (mkRedshiftState dvc z_max).zs = linspace (1 / 1000) z_max 1000 := by
  simp only [mkRedshiftState]

lemma mk_cached (dvc : ℝ → ℝ) (z_max : ℝ) :
    (mkRedshiftState dvc z_max).cached_dvc_dz = none := by
  simp only [mkRedshiftState]

/-- The stored full-sky volume values of the counterexample provider. -/
lemma mkCex_dvc_lin : (mkRedshiftState dvcCex 1).dvc_dz
    = (linspace (1 / 1000) 1 1000).map (fun z => (3 + z) / 2) := by
  simp only [mkRedshiftState]
  have h : (fun z => dvcCex z * 4 * Real.pi) = fun z : ℝ => (3 + z) / 2 := by
    funext z
    unfold dvcCex
    have hpi := Real.pi_ne_zero
    field_simp
    ring
  rw [h]

/-- For at least two samples, `getLast?` of `linspace` is `some hi`. -/
lemma linspace_getLast_some (lo hi : ℝ) (m : ℕ) (hm : 1 ≤ m) :
    (linspace lo hi (m + 1)).getLast? = some hi := by
  unfold linspace
  rw [List.range_succ, List.map_append]
  simp only [List.map_cons, List.map_nil, List.getLast?_concat]
  have hm' : ((m : ℝ)) ≠ 0 := by
    have : (1 : ℝ) ≤ (m : ℝ) := by exact_mod_cast hm
    linarith
  have hden : ((m + 1 : ℕ) : ℝ) - 1 = (m : ℝ) := by push_cast; ring
  rw [hden, mul_div_assoc, div_self hm', mul_one]
  congr 1
  ring

lemma linspaceCex_last_some : (linspace (1 / 1000) 1 1000).getLast? = some 1 := by
  have h : (1000 : ℕ) = 999 + 1 := by norm_num
  rw [h]
  exact linspace_getLast_some _ _ 999 (by norm_num)

lemma linspaceCex_lastD : (linspace (1 / 1000) 1 1000).getLast?.getD 0 = 1 := by
  rw [linspaceCex_last_some]
  rfl

lemma linspaceCex_headD : (linspace (1 / 1000) 1 1000).head?.getD 0 = 1 / 1000 := by
  have h : (1000 : ℕ) = 999 + 1 := by norm_num
  rw [h, linspace_eq_cons]
  rfl

set_option maxRecDepth 4000 in
lemma linspaceCex_chain : List.Chain' (· < ·) (linspace (1 / 1000) 1 1000) := by
  apply linspace_chain'
  norm_num

lemma linspaceCex_ne : linspace (1 / 1000) 1 1000 ≠ [] := by
  intro h
  have hl := linspace_length (1 / 1000) 1 1000
  rw [h] at hl
  simp at hl

/-- With the counterexample provider, the power-law (`lamb = 1`)
normalisation over the 1000-point grid has a closed form: the integrand is
affine, so the trapezoid rule telescopes. -/
lemma normPL_val :
    normalisation (PowerLawRedshift.psi_of_z 1 1) (mkRedshiftState dvcCex 1)
      = 6993999 / 4000000 := by
  have hd : (mkRedshiftState dvcCex 1).dvc_dz
      = (mkRedshiftState dvcCex 1).zs.map (fun z => (3 + z) / 2) := by
    rw [mkCex_dvc_lin, mk_zs]
  rw [normalisation_eq_trapz_map _ _ _ hd, mk_zs]
  have hcong : (linspace (1 / 1000) 1 1000).map
        (fun z => PowerLawRedshift.psi_of_z 1 1 z * ((3 + z) / 2) / (1 + z))
      = (linspace (1 / 1000) 1 1000).map (fun z => 3 / 2 + 1 / 2 * z) := by
    apply List.map_congr_left
    intro z hz
    have hzb := linspace_mem_bounds (by norm_num : (1 : ℝ) / 1000 ≤ 1) hz
    rw [psi_of_z_powerlaw_in_range 1 1 z (by linarith [hzb.1]) hzb.2,
      Real.rpow_one]
    have h1z : (1 : ℝ) + z ≠ 0 := by linarith [hzb.1]
    field_simp
    ring
  rw [hcong, trapz_affine (3 / 2) (1 / 2), linspaceCex_lastD, linspaceCex_headD]
  norm_num

/-- With the counterexample provider, the Madau-Dickinson normalisation at
`gamma = kappa = z_peak = 1` over the 1000-point grid: the integrand is the
constant 1, so the trapezoid rule gives the grid width. -/
lemma normMD_val :
    normalisation (MadauDickinsonRedshift.psi_of_z 1 1 1 1)
        (mkRedshiftState dvcCex 1)
      = 999 / 1000 := by
  have hd : (mkRedshiftState dvcCex 1).dvc_dz
      = (mkRedshiftState dvcCex 1).zs.map (fun z => (3 + z) / 2) := by
    rw [mkCex_dvc_lin, mk_zs]
  rw [normalisation_eq_trapz_map _ _ _ hd, mk_zs]
  have hcong : (linspace (1 / 1000) 1 1000).map
        (fun z => MadauDickinsonRedshift.psi_of_z 1 1 1 1 z
          * ((3 + z) / 2) / (1 + z))
      = (linspace (1 / 1000) 1 1000).map (fun z => 1 + 0 * z) := by
    apply List.map_congr_left
    intro z hz
    have hzb := linspace_mem_bounds (by norm_num : (1 : ℝ) / 1000 ≤ 1) hz
    unfold MadauDickinsonRedshift.psi_of_z powerlaw
    rw [if_pos ⟨by linarith [hzb.1], by linarith [hzb.2]⟩]
    simp only [Real.rpow_one]
    have h1z : (1 : ℝ) + z ≠ 0 := by linarith [hzb.1]
    have h3z : (3 : ℝ) + z ≠ 0 := by linarith [hzb.1]
    have hden : 1 + (1 + z) / ((1 : ℝ) + 1) = (3 + z) / 2 := by ring
    rw [hden]
    field_simp
  rw [hcong, trapz_affine 1 0, linspaceCex_lastD, linspaceCex_headD]
  norm_num

set_option maxRecDepth 8000 in
/-- Interpolating the counterexample volume values at the boundary query
`z = 1` (the last grid point) gives the last value, `2`. -/
lemma interpCex_at1 :
    interp 1 (linspace (1 / 1000) 1 1000)
        ((linspace (1 / 1000) 1 1000).map (fun z => (3 + z) / 2)) = 2 := by
  rw [interp_of_getLast_le 1 _ _ linspaceCex_chain (by simp) linspaceCex_ne
    (by rw [linspaceCex_lastD])]
  rw [List.getLast?_map, linspaceCex_last_some]
  norm_num

set_option maxRecDepth 8000 in
/-- Interpolating at the query `z = 0`, below the first grid point
`1/1000`, clamps to the first value, `3001/2000`. -/
lemma interpCex_at0 :
    interp 0 (linspace (1 / 1000) 1 1000)
        ((linspace (1 / 1000) 1 1000).map (fun z => (3 + z) / 2))
      = 3001 / 2000 := by
  have h : (1000 : ℕ) = 999 + 1 := by norm_num
  rw [h, linspace_eq_cons, List.map_cons]
  rw [interp_of_le_head 0 _ _ _ _ (by norm_num) (by simp)]
  norm_num

lemma psiPL_at1 : PowerLawRedshift.psi_of_z 1 1 1 = 2 := by
  rw [psi_of_z_powerlaw_in_range 1 1 1 (by norm_num) (by norm_num),
    Real.rpow_one]
  norm_num

lemma psiMD_at1 : MadauDickinsonRedshift.psi_of_z 1 1 1 1 1 = 1 := by
  unfold MadauDickinsonRedshift.psi_of_z powerlaw
  rw [if_pos (⟨by norm_num, by norm_num⟩ :
    (1 : ℝ) ≤ 1 + 1 ∧ (1 : ℝ) + 1 ≤ 1 + 1)]
  simp only [Real.rpow_one]
  norm_num

set_option maxRecDepth 8000 in
/-- Fresh power-law (`lamb = 1`) evaluation at the dataset `[1]` with the
counterexample provider. -/
lemma probPL_fresh_at1 :
    (probability (PowerLawRedshift.psi_of_z 1 1)
        (mkRedshiftState dvcCex 1) [1]).1
      = [8000000 / 6993999] := by
  rw [probability_recompute _ _ _ (Or.inl (mk_cached dvcCex 1))]
  dsimp only
  simp only [List.map_cons, List.map_nil]
  rw [mk_zs, mkCex_dvc_lin, interpCex_at1, normPL_val, psiPL_at1]
  congr 1
  norm_num

set_option maxRecDepth 8000 in
/-- Fresh Madau-Dickinson (`gamma = kappa = z_peak = 1`) evaluation at the
dataset `[1]` with the counterexample provider. -/
lemma probMD_fresh_at1 :
    (probability (MadauDickinsonRedshift.psi_of_z 1 1 1 1)
        (mkRedshiftState dvcCex 1) [1]).1
      = [1000 / 999] := by
  rw [probability_recompute _ _ _ (Or.inl (mk_cached dvcCex 1))]
  dsimp only
  simp only [List.map_cons, List.map_nil]
  rw [mk_zs, mkCex_dvc_lin, interpCex_at1, normMD_val, psiMD_at1]
  congr 1
  norm_num

/-- `p_z` ignores the cache slot. -/
lemma p_z_cached_irrelevant (psi : ℝ → ℝ) (st : RedshiftState)
    (data : List ℝ) (x : Option (List ℝ)) :
    p_z psi { st with cached_dvc_dz := x } data = p_z psi st data := rfl

/-- `normalisation` only sees the grid and volume arrays of the state. -/
lemma normalisation_congr_state (psi : ℝ → ℝ) (st st' : RedshiftState)
    (hz : st'.zs = st.zs) (hd : st'.dvc_dz = st.dvc_dz) :
    normalisation psi st' = normalisation psi st := by
  unfold normalisation
  rw [hz, hd]

set_option maxRecDepth 8000 in
/-- Power-law evaluation at `[1]` after a previous call with the dataset
`[0]`: the stale one-element cache (the interpolation at `0`) has the same
length as the new dataset, so numpy's in-place product succeeds and the
stale value `3001/2000` is silently used instead of the correct `2`. -/
lemma probPL_stale_at1 :
    (probability (PowerLawRedshift.psi_of_z 1 1)
        ((probability (PowerLawRedshift.psi_of_z 1 1)
          (mkRedshiftState dvcCex 1) [0]).2) [1]).1
      = [6002000 / 6993999] := by
  rw [probability_recompute _ _ [0] (Or.inl (mk_cached dvcCex 1))]
  dsimp only
  rw [probability_reuse _ _ [1] (cache_dvc_dz (mkRedshiftState dvcCex 1) [0])
    rfl (Or.inl (by simp [cache_dvc_dz_length]))]
  dsimp only
  have hcache : cache_dvc_dz (mkRedshiftState dvcCex 1) [0] = [3001 / 2000] := by
    unfold cache_dvc_dz
    simp only [List.map_cons, List.map_nil]
    rw [mk_zs, mkCex_dvc_lin, interpCex_at0]
  rw [hcache, p_z_cached_irrelevant]
  unfold p_z mulBroadcast
  simp only [List.map_cons, List.map_nil, List.length_cons, List.length_nil,
    if_pos, List.headI]
  rw [psiPL_at1, normPL_val]
  congr 1
  norm_num

set_option maxRecDepth 8000 in
/-- What C1's formula actually prescribes for the dataset `[1]` on the
instance left by a previous `[0]` call: the volume term interpolated at the
dataset redshift (`2`), not the stale cached value. -/
lemma formulaPL_stale_at1 :
    ([1] : List ℝ).map (fun z => PowerLawRedshift.psi_of_z 1 1 z / (1 + z)
        / normalisation (PowerLawRedshift.psi_of_z 1 1)
            ((probability (PowerLawRedshift.psi_of_z 1 1)
              (mkRedshiftState dvcCex 1) [0]).2)
        * interp z
            ((probability (PowerLawRedshift.psi_of_z 1 1)
              (mkRedshiftState dvcCex 1) [0]).2).zs
            ((probability (PowerLawRedshift.psi_of_z 1 1)
              (mkRedshiftState dvcCex 1) [0]).2).dvc_dz)
      = [8000000 / 6993999] := by
  obtain ⟨hzs, hdv, -⟩ := probability_preserves_fields
    (PowerLawRedshift.psi_of_z 1 1) (mkRedshiftState dvcCex 1) [0]
  have hn : normalisation (PowerLawRedshift.psi_of_z 1 1)
      ((probability (PowerLawRedshift.psi_of_z 1 1)
        (mkRedshiftState dvcCex 1) [0]).2)
      = normalisation (PowerLawRedshift.psi_of_z 1 1)
          (mkRedshiftState dvcCex 1) :=
    normalisation_congr_state _ _ _ hzs hdv
  simp only [List.map_cons, List.map_nil]
  rw [hzs, hdv, hn, mk_zs, mkCex_dvc_lin, interpCex_at1, normPL_val, psiPL_at1]
  congr 1
  norm_num

/-- C7 counterexample: with `kappa = gamma = 1` (and `z_peak = 1 > 0`,
`z_max = 1`, dataset `[1]`, a legitimate cosmology provider), the peaked
model's probability `1000/999 ≈ 1.001` differs far beyond numerical
tolerance from the power-law model's `8000000/6993999 ≈ 1.1438`: setting
`kappa = gamma` does not degenerate the peak shape to the power law. -/
theorem md_kappa_eq_gamma_counterexample :
    (probability (MadauDickinsonRedshift.psi_of_z 1 1 1 1)
        (mkRedshiftState dvcCex 1) [1]).1
      ≠ (probability (PowerLawRedshift.psi_of_z 1 1)
        (mkRedshiftState dvcCex 1) [1]).1 := by
  rw [probMD_fresh_at1, probPL_fresh_at1]
  simp only [ne_eq, List.cons.injEq, and_true]
  norm_num

/-- C1 counterexample: on the instance left by evaluating the dataset `[0]`,
evaluating `[1]` returns `6002000/6993999` (the stale cached interpolation
at `0` is reused: same length, so numpy's in-place product succeeds), not
the claimed formula value `8000000/6993999` with the volume interpolated at
the dataset redshift `1`. -/
theorem probability_stale_cache_counterexample :
    (probability (PowerLawRedshift.psi_of_z 1 1)
        ((probability (PowerLawRedshift.psi_of_z 1 1)
          (mkRedshiftState dvcCex 1) [0]).2) [1]).1
      ≠ ([1] : List ℝ).map (fun z => PowerLawRedshift.psi_of_z 1 1 z / (1 + z)
          / normalisation (PowerLawRedshift.psi_of_z 1 1)
              ((probability (PowerLawRedshift.psi_of_z 1 1)
                (mkRedshiftState dvcCex 1) [0]).2)
          * interp z
              ((probability (PowerLawRedshift.psi_of_z 1 1)
                (mkRedshiftState dvcCex 1) [0]).2).zs
              ((probability (PowerLawRedshift.psi_of_z 1 1)
                (mkRedshiftState dvcCex 1) [0]).2).dvc_dz) := by
  rw [probPL_stale_at1, formulaPL_stale_at1]
  simp only [ne_eq, List.cons.injEq, and_true]
  norm_num

/-- C3 counterexample: the same dataset `[1]` with the same parameters
yields `8000000/6993999` on a fresh instance but `6002000/6993999` on the
instance left by a previous same-length dataset `[0]` — the output depends
on the cache state, not only on the dataset and parameters. -/
theorem probability_cache_dependence_counterexample :
    (probability (PowerLawRedshift.psi_of_z 1 1)
        ((probability (PowerLawRedshift.psi_of_z 1 1)
          (mkRedshiftState dvcCex 1) [0]).2) [1]).1
      ≠ (probability (PowerLawRedshift.psi_of_z 1 1)
        (mkRedshiftState dvcCex 1) [1]).1 := by
  rw [probPL_stale_at1, probPL_fresh_at1]
  simp only [ne_eq, List.cons.injEq, and_true]
  norm_num
